import Mathlib

/-!
Shallow embedding of the `cline` crate (src/lib.rs): a command trie with
`register` / `register_dyn_complete` / `complete` / `exec`, a byte-level key
decoder `read_key`, and the interactive terminal loop `unix_cline_run`.

Modelling conventions:
* Rust `HashMap<&str, Cli>` becomes an association list `List (String × Cli)`.
  HashMap key order is unspecified; this model fixes insertion order.
  `HashMap::insert` of a fresh key appends; `get_mut` updates in place.
* A handler's exec closure is identified by a `Nat` id; invoking it is
  recorded as the pair `(id, argv)` that `exec` produces.  The dynamic
  complete closure is carried as an actual function `List String → List String`.
* `str::split_whitespace` becomes `tokenize`.  The source sometimes calls
  `.trim()` first; trimming is a no-op before whitespace tokenization, so
  both token streams in `exec` (argv and portions) are `tokenize line`.
* `exec` never mutates the trie (the Rust code only calls `FnMut` closures
  through `RefCell`), so repeated calls run against the same pure value.
-/

/-- Whitespace splitter used to model Rust's `str::split_whitespace`:
accumulates a current word (reversed) and emits maximal nonempty runs of
non-whitespace characters. -/
def wordsAux : List Char → List Char → List String
  | [], [] => []
  | [], acc => [String.mk acc.reverse]
  | c :: cs, acc =>
    if c.isWhitespace then
      match acc with
      | [] => wordsAux cs []
      | _ => String.mk acc.reverse :: wordsAux cs []
    else wordsAux cs (c :: acc)

/-- Token stream of an input line (Rust `line.split_whitespace()`), the sole
tokenization used by `complete` and `exec`. -/
def tokenize (s : String) : List String := wordsAux s.data []

/-- Model of Rust `str::starts_with` on the unmatched token vs. a child key. -/
def strStartsWith (pre s : String) : Bool := List.isPrefixOf pre.data s.data

/-- A registered handler (`struct Command` in src/lib.rs): the command path it
was registered with, its exec closure (identified by `execId`), and the
optional dynamic complete closure. -/
structure Command where
  command : List String
  execId : Nat
  complete : Option (List String → List String)

/-- The command trie (`struct Cli`): a token-keyed child map plus an optional
handler at this node. -/
inductive Cli where
  | mk (commands : List (String × Cli)) (handler : Option Command)

def Cli.commands : Cli → List (String × Cli)
  | .mk cs _ => cs

def Cli.handler : Cli → Option Command
  | .mk _ h => h

@[simp] theorem Cli.commands_mk (cs : List (String × Cli)) (h : Option Command) :
    (Cli.mk cs h).commands = cs := rfl

@[simp] theorem Cli.handler_mk (cs : List (String × Cli)) (h : Option Command) :
    (Cli.mk cs h).handler = h := rfl

/-- `HashMap` lookup (`contains_key` / `get_mut`) on the child map. -/
def lookupKey (k : String) : List (String × Cli) → Option Cli
  | [] => none
  | (k', v) :: rest => if k' = k then some v else lookupKey k rest

/-- In-place update of an existing key (`get_mut` then mutate). -/
def setKey (k : String) (v : Cli) : List (String × Cli) → List (String × Cli)
  | [] => []
  | (k', v') :: rest => if k' = k then (k', v) :: rest else (k', v') :: setKey k v rest

/-- `Cli::_register`: walks the token iterator, creating or reusing one node
per token; returns `false` (Rust `Err`) exactly when the iterator is empty,
in which case the caller stores the handler at its own node. -/
def Cli.regAux (cmd : Command) : List String → Cli → Cli × Bool
  | [], c => (c, false)
  | portion :: rest, c =>
    match lookupKey portion c.commands with
    | none =>
      let pr := Cli.regAux cmd rest (Cli.mk [] none)
      let child := if pr.2 then pr.1 else Cli.mk pr.1.commands (some cmd)
      (Cli.mk (c.commands ++ [(portion, child)]) c.handler, true)
    | some existing =>
      let pr := Cli.regAux cmd rest existing
      let child := if pr.2 then pr.1 else Cli.mk pr.1.commands (some cmd)
      (Cli.mk (setKey portion child c.commands) c.handler, true)

/-- `Cli::register`: builds the `Command` (no dynamic complete callback) and
runs `_register`; on `Err` (empty path) it additionally installs the handler
at the root node, exactly as the source does. -/
def Cli.register (c : Cli) (cmdPath : List String) (execId : Nat) :
    Cli × Except Unit Unit :=
  let tmp : Command := ⟨cmdPath, execId, none⟩
  let pr := Cli.regAux tmp cmdPath c
  if pr.2 then (pr.1, Except.ok ())
  else (Cli.mk pr.1.commands (some tmp), Except.error ())

/-- `Cli::register_dyn_complete`: same as `register` but the `Command` carries
the dynamic complete closure. -/
def Cli.register_dyn_complete (c : Cli) (cmdPath : List String) (execId : Nat)
    (cb : List String → List String) : Cli × Except Unit Unit :=
  let tmp : Command := ⟨cmdPath, execId, some cb⟩
  let pr := Cli.regAux tmp cmdPath c
  if pr.2 then (pr.1, Except.ok ())
  else (Cli.mk pr.1.commands (some tmp), Except.error ())

/-- Candidates contributed by this node's dynamic complete callback, if any
(the `if let Some(handler) … if let Some(cb) … extend` pattern of
`Cli::_complete`). -/
def dynOf (n : Cli) (args : List String) : List String :=
  match n.handler with
  | some h =>
    match h.complete with
    | some cb => cb args
    | none => []
  | none => []

/-- `Cli::_complete`: descend on exact child matches; at a mismatch return
dynamic candidates (callback applied to the unmatched token plus the rest)
followed by child keys having the unmatched token as a literal string
prefix; on token exhaustion return dynamic candidates for the sentinel
`[""]` followed by every child key.  The `Result` mirrors the source's
signature (the `Err` case is never produced). -/
def Cli.completeAux : List String → Cli → Except Unit (List String)
  | portion :: rest, c =>
    match lookupKey portion c.commands with
    | some cmd => Cli.completeAux rest cmd
    | none =>
      Except.ok (dynOf c (portion :: rest) ++
        (c.commands.map Prod.fst).filter (fun k => strStartsWith portion k))
  | [], c =>
    Except.ok (dynOf c [""] ++ c.commands.map Prod.fst)

/-- `Cli::complete`: tokenize (trim is absorbed by whitespace tokenization)
and run `_complete`, mapping `Err` to the empty vector. -/
def Cli.complete (c : Cli) (line : String) : List String :=
  match Cli.completeAux (tokenize line) c with
  | Except.ok ret => ret
  | Except.error _ => []

/-- `Cli::_exec`: descend on exact child matches; the moment a token has no
matching child, or the tokens run out, invoke this node's handler (if any)
with the full original argv.  The produced pair records which exec closure
ran and with which arguments; `none` is the silent no-op. -/
def Cli.execAux : List String → Cli → List String → Option (Nat × List String)
  | portion :: rest, c, argv =>
    match lookupKey portion c.commands with
    | some cmd => Cli.execAux rest cmd argv
    | none =>
      match c.handler with
      | some cb => some (cb.execId, argv)
      | none => none
  | [], c, argv =>
    match c.handler with
    | some cb => some (cb.execId, argv)
    | none => none

/-- `Cli::exec`: both the collected argv and the traversal portions are the
whitespace tokens of the line (the source trims before the second split,
which changes nothing). -/
def Cli.exec (c : Cli) (line : String) : Option (Nat × List String) :=
  Cli.execAux (tokenize line) c (tokenize line)

/-- Invocations produced by a sequence of `exec` calls on the same trie
(the trie value is unchanged by `exec`, so calls are independent). -/
def Cli.execTrace (c : Cli) : List String → List (Nat × List String)
  | [] => []
  | l :: ls => (Cli.exec c l).toList ++ Cli.execTrace c ls

/-- Node reached from `c` by consuming the exact child-key path `p`. -/
def Cli.descend : Cli → List String → Option Cli
  | c, [] => some c
  | c, t :: ts =>
    match lookupKey t c.commands with
    | some child => Cli.descend child ts
    | none => none

/-- The node at path `p`, defaulting to an empty node (total helper used to
phrase hypotheses about the trie shape). -/
def nodeAt (c : Cli) (p : List String) : Cli :=
  (Cli.descend c p).getD (Cli.mk [] none)

/-- Arrow-key directions (`enum Direction`). -/
inductive Direction where
  | up | down | left | right
deriving DecidableEq, Repr

/-- Semantic key events (`enum Key`). -/
inductive Key where
  | char (c : Char)
  | symbol (c : Char)
  | digit (d : Nat)
  | arrow (d : Direction)
  | whitespace
  | backspace
  | del
  | tab
  | newline
  | etx
deriving DecidableEq, Repr

/-- Outcome of one `read_key` call.  `noKey` is Rust's `None` (end of stream
or unrecognized escape tail, diagnostics only); `panicked` marks the
`c.unwrap()` calls that fire when the stream ends right after `0x1B` or
after `0x1B 0x5B` (unwrap of `None`). -/
inductive ReadResult where
  | key (k : Key)
  | noKey
  | panicked
deriving DecidableEq, Repr

/-- Tail of an escape sequence: the bytes after a leading `0x1B`, mirroring
the nested `bytes.next()` matches in `unix::read_key`. -/
def escTail : List Nat → ReadResult × List Nat
  | [] => (ReadResult.panicked, [])
  | b2 :: r =>
    if b2 = 0x5B then
      match r with
      | [] => (ReadResult.panicked, [])
      | b3 :: r2 =>
        if b3 = 0x41 then (ReadResult.key (Key.arrow Direction.up), r2)
        else if b3 = 0x42 then (ReadResult.key (Key.arrow Direction.down), r2)
        else if b3 = 0x43 then (ReadResult.key (Key.arrow Direction.right), r2)
        else if b3 = 0x44 then (ReadResult.key (Key.arrow Direction.left), r2)
        else (ReadResult.noKey, r2)
    else (ReadResult.noKey, r)

/-- Classification of a single non-escape byte, in the source's match-arm
order (digits, letters, space, del, tab, backspace, newline, etx, then the
catch-all `Symbol`). -/
def classifySingle (b : Nat) : ReadResult :=
  if 0x30 ≤ b ∧ b ≤ 0x39 then ReadResult.key (Key.digit (b - 0x30))
  else if (0x41 ≤ b ∧ b ≤ 0x5A) ∨ (0x61 ≤ b ∧ b ≤ 0x7A) then
    ReadResult.key (Key.char (Char.ofNat b))
  else if b = 0x20 then ReadResult.key Key.whitespace
  else if b = 0x7F then ReadResult.key Key.del
  else if b = 0x09 then ReadResult.key Key.tab
  else if b = 0x08 then ReadResult.key Key.backspace
  else if b = 0x0A then ReadResult.key Key.newline
  else if b = 0x03 then ReadResult.key Key.etx
  else ReadResult.key (Key.symbol (Char.ofNat b))

/-- `unix::read_key` over a pure byte stream: produces the classification of
the next byte(s) and the remaining stream. -/
def read_key : List Nat → ReadResult × List Nat
  | [] => (ReadResult.noKey, [])
  | b :: rest =>
    if b = 0x1B then escTail rest
    else (classifySingle b, rest)

/-- The byte code table transcribed from the spec's words (§6), used only to
compare `read_key` against the spec for single-byte classifications. -/
def specKeyTable (b : Nat) : Key :=
  if b = 0x03 then Key.etx
  else if b = 0x08 then Key.backspace
  else if b = 0x09 then Key.tab
  else if b = 0x0A then Key.newline
  else if b = 0x20 then Key.whitespace
  else if 0x30 ≤ b ∧ b ≤ 0x39 then Key.digit (b - 0x30)
  else if (0x41 ≤ b ∧ b ≤ 0x5A) ∨ (0x61 ≤ b ∧ b ≤ 0x7A) then Key.char (Char.ofNat b)
  else if b = 0x7F then Key.del
  else Key.symbol (Char.ofNat b)

/-- Observable terminal-side effects of one loop iteration of
`unix::unix_cline_run`. -/
inductive Event where
  | echo (c : Char)
  | erase
  | suggest (cs : List String)
  | reprompt (buf : List Char)
  | newlineOut
  | promptOut
  | unhandledKey (k : Key)
deriving DecidableEq, Repr

/-- How the session loop ended: `etx` (Ctrl-C `break`), `noKey` (decoder
returned `None`: stream end or unrecognized escape), or `panicked`
(a panic inside `read_key` unwound out of the loop). -/
inductive ExitKind where
  | etx | noKey | panicked
deriving DecidableEq, Repr

/-- Result of running the session loop: final line buffer, the exec-closure
invocations performed, the terminal output events, and the exit path. -/
structure RunResult where
  buffer : List Char
  execs : List (Nat × List String)
  events : List Event
  exits : ExitKind
deriving DecidableEq, Repr

def RunResult.cons (e : Event) (r : RunResult) : RunResult :=
  ⟨r.buffer, r.execs, e :: r.events, r.exits⟩

def RunResult.consExec (x : Option (Nat × List String)) (r : RunResult) : RunResult :=
  ⟨r.buffer, x.toList ++ r.execs, r.events, r.exits⟩

theorem escTail_le (r : List Nat) : ((escTail r).2).length ≤ r.length := by
  match r with
  | [] => simp [escTail]
  | b2 :: rr =>
    simp only [escTail]
    split
    · cases rr with
      | nil => simp
      | cons b3 r2 =>
        simp only [List.length_cons]
        split
        · simp; omega
        · split
          · simp; omega
          · split
            · simp; omega
            · split <;> simp <;> omega
    · simp

theorem read_key_snd_le (b : Nat) (rest : List Nat) :
    ((read_key (b :: rest)).2).length ≤ rest.length := by
  simp only [read_key]
  split
  · exact escTail_le rest
  · exact Nat.le_refl _

theorem read_key_lt {s : List Nat} {k : Key} {r : List Nat}
    (h : read_key s = (ReadResult.key k, r)) : r.length < s.length := by
  match s with
  | [] => simp [read_key] at h
  | b :: rest =>
    have hle := read_key_snd_le b rest
    rw [h] at hle
    simpa [Nat.lt_succ_iff] using hle

set_option linter.unusedVariables false in
/-- The body of `unix::unix_cline_run`'s event loop: read a key, mutate the
line buffer, record the echoed output, and recurse; `Etx` and a `None` from
the decoder break the loop, a decoder panic unwinds.  `Symbol`, `Digit` and
`Arrow` keys fall into the source's `x @ _ => println!("unhandled…")` arm. -/
def runLoop (cli : Cli) (buffer : List Char) (stream : List Nat) : RunResult :=
  match hrk : read_key stream with
  | (ReadResult.panicked, _) => ⟨buffer, [], [], ExitKind.panicked⟩
  | (ReadResult.noKey, _) => ⟨buffer, [], [], ExitKind.noKey⟩
  | (ReadResult.key Key.etx, _) => ⟨buffer, [], [Event.newlineOut], ExitKind.etx⟩
  | (ReadResult.key (Key.char c), rest) =>
    RunResult.cons (Event.echo c) (runLoop cli (buffer ++ [c]) rest)
  | (ReadResult.key Key.whitespace, rest) =>
    RunResult.cons (Event.echo ' ') (runLoop cli (buffer ++ [' ']) rest)
  | (ReadResult.key Key.del, rest) =>
    RunResult.cons Event.erase (runLoop cli buffer.dropLast rest)
  | (ReadResult.key Key.backspace, rest) =>
    RunResult.cons Event.erase (runLoop cli buffer.dropLast rest)
  | (ReadResult.key Key.tab, rest) =>
    RunResult.cons (Event.suggest (Cli.complete cli (String.mk buffer)))
      (RunResult.cons (Event.reprompt buffer) (runLoop cli buffer rest))
  | (ReadResult.key Key.newline, rest) =>
    RunResult.consExec (Cli.exec cli (String.mk buffer))
      (RunResult.cons Event.newlineOut
        (RunResult.cons Event.promptOut (runLoop cli [] rest)))
  | (ReadResult.key k, rest) =>
    RunResult.cons (Event.unhandledKey k) (runLoop cli buffer rest)
termination_by stream.length
decreasing_by
  all_goals exact read_key_lt hrk

/-- A session run: the loop from an empty buffer, plus whether the
`tcsetattr(0, TCSANOW, &term_orig)` after the loop executed.  That call is
straight-line code with no scope guard, so it runs exactly when the loop
returns without panicking. -/
structure SessionResult where
  loop : RunResult
  restored : Bool

def restoresOn : ExitKind → Bool
  | ExitKind.panicked => false
  | _ => true

def unix_cline_run (cli : Cli) (stream : List Nat) : SessionResult :=
  let r := runLoop cli [] stream
  ⟨r, restoresOn r.exits⟩

theorem runLoop_panic {s r : List Nat} (cli : Cli) (buf : List Char)
    (h : read_key s = (ReadResult.panicked, r)) :
    runLoop cli buf s = ⟨buf, [], [], ExitKind.panicked⟩ := by
  rw [runLoop.eq_def]
  split <;> simp_all

theorem runLoop_noKey {s r : List Nat} (cli : Cli) (buf : List Char)
    (h : read_key s = (ReadResult.noKey, r)) :
    runLoop cli buf s = ⟨buf, [], [], ExitKind.noKey⟩ := by
  rw [runLoop.eq_def]
  split <;> simp_all

theorem runLoop_etx {s r : List Nat} (cli : Cli) (buf : List Char)
    (h : read_key s = (ReadResult.key Key.etx, r)) :
    runLoop cli buf s = ⟨buf, [], [Event.newlineOut], ExitKind.etx⟩ := by
  rw [runLoop.eq_def]
  split <;> simp_all

theorem runLoop_char {s rest : List Nat} (cli : Cli) (buf : List Char) (c : Char)
    (h : read_key s = (ReadResult.key (Key.char c), rest)) :
    runLoop cli buf s = RunResult.cons (Event.echo c) (runLoop cli (buf ++ [c]) rest) := by
  rw [runLoop.eq_def]
  split <;> simp_all

theorem runLoop_ws {s rest : List Nat} (cli : Cli) (buf : List Char)
    (h : read_key s = (ReadResult.key Key.whitespace, rest)) :
    runLoop cli buf s = RunResult.cons (Event.echo ' ') (runLoop cli (buf ++ [' ']) rest) := by
  rw [runLoop.eq_def]
  split <;> simp_all

theorem runLoop_digit {s rest : List Nat} (cli : Cli) (buf : List Char) (d : Nat)
    (h : read_key s = (ReadResult.key (Key.digit d), rest)) :
    runLoop cli buf s =
      RunResult.cons (Event.unhandledKey (Key.digit d)) (runLoop cli buf rest) := by
  rw [runLoop.eq_def]
  split <;> simp_all

theorem runLoop_symbol {s rest : List Nat} (cli : Cli) (buf : List Char) (c : Char)
    (h : read_key s = (ReadResult.key (Key.symbol c), rest)) :
    runLoop cli buf s =
      RunResult.cons (Event.unhandledKey (Key.symbol c)) (runLoop cli buf rest) := by
  rw [runLoop.eq_def]
  split <;> simp_all

theorem lookup_setKey {k : String} (v : Cli) :
    ∀ l x, lookupKey k l = some x → lookupKey k (setKey k v l) = some v := by
  intro l
  induction l with
  | nil => intro x h; simp [lookupKey] at h
  | cons hd tl ih =>
    intro x h
    obtain ⟨k', v'⟩ := hd
    by_cases hk : k' = k
    · subst hk
      simp [lookupKey, setKey]
    · simp only [lookupKey, setKey, if_neg hk] at h ⊢
      exact ih x h

theorem lookup_append_self {k : String} (v : Cli) :
    ∀ l, lookupKey k l = none → lookupKey k (l ++ [(k, v)]) = some v := by
  intro l
  induction l with
  | nil => intro _; simp [lookupKey]
  | cons hd tl ih =>
    intro h
    obtain ⟨k', v'⟩ := hd
    by_cases hk : k' = k
    · simp [lookupKey, if_pos hk] at h
    · simp only [List.cons_append, lookupKey, if_neg hk] at h ⊢
      exact ih h

theorem regAux_ok (cmd : Command) (t : String) (ts : List String) (c : Cli) :
    (Cli.regAux cmd (t :: ts) c).2 = true := by
  cases h : lookupKey t c.commands <;> simp [Cli.regAux, h]

/-- The child node `_register` stores under the first token: the result of
registering the remaining tokens, with the handler attached here when the
remainder was empty (`Err`). -/
def regAuxChild (cmd : Command) (ts : List String) (c0 : Cli) : Cli :=
  if (Cli.regAux cmd ts c0).2 then (Cli.regAux cmd ts c0).1
  else Cli.mk (Cli.regAux cmd ts c0).1.commands (some cmd)

theorem regAux_fst_none (cmd : Command) {t : String} (ts : List String) {c : Cli}
    (hl : lookupKey t c.commands = none) :
    (Cli.regAux cmd (t :: ts) c).1 =
      Cli.mk (c.commands ++ [(t, regAuxChild cmd ts (Cli.mk [] none))]) c.handler := by
  simp [Cli.regAux, regAuxChild, hl]

theorem regAux_fst_some (cmd : Command) {t : String} (ts : List String) {c existing : Cli}
    (hl : lookupKey t c.commands = some existing) :
    (Cli.regAux cmd (t :: ts) c).1 =
      Cli.mk (setKey t (regAuxChild cmd ts existing) c.commands) c.handler := by
  simp [Cli.regAux, regAuxChild, hl]

theorem regAuxChild_nil (cmd : Command) (c0 : Cli) :
    regAuxChild cmd [] c0 = Cli.mk c0.commands (some cmd) := by
  simp [regAuxChild, Cli.regAux]

theorem regAuxChild_cons (cmd : Command) (r : String) (rs : List String) (c0 : Cli) :
    regAuxChild cmd (r :: rs) c0 = (Cli.regAux cmd (r :: rs) c0).1 := by
  simp [regAuxChild, regAux_ok]

theorem descend_cons {c child : Cli} {t : String} (ts : List String)
    (hl : lookupKey t c.commands = some child) :
    Cli.descend c (t :: ts) = Cli.descend child ts := by
  simp [Cli.descend, hl]

theorem execAux_descend (argv : List String) :
    ∀ (p : List String) (rest : List String) (c n : Cli),
      Cli.descend c p = some n →
      Cli.execAux (p ++ rest) c argv = Cli.execAux rest n argv := by
  intro p
  induction p with
  | nil =>
    intro rest c n h
    simp only [Cli.descend, Option.some.injEq] at h
    subst h
    rfl
  | cons t ts ih =>
    intro rest c n h
    simp only [Cli.descend] at h
    cases hl : lookupKey t c.commands with
    | none => rw [hl] at h; exact absurd h (by simp)
    | some child =>
      rw [hl] at h
      simp only [List.cons_append, Cli.execAux, hl]
      exact ih rest child n h

theorem completeAux_descend :
    ∀ (p : List String) (rest : List String) (c n : Cli),
      Cli.descend c p = some n →
      Cli.completeAux (p ++ rest) c = Cli.completeAux rest n := by
  intro p
  induction p with
  | nil =>
    intro rest c n h
    simp only [Cli.descend, Option.some.injEq] at h
    subst h
    rfl
  | cons t ts ih =>
    intro rest c n h
    simp only [Cli.descend] at h
    cases hl : lookupKey t c.commands with
    | none => rw [hl] at h; exact absurd h (by simp)
    | some child =>
      rw [hl] at h
      simp only [List.cons_append, Cli.completeAux, hl]
      exact ih rest child n h

/-- After `_register` of a nonempty path, descending that path reaches a node
whose handler is the registered command. -/
theorem regAux_reaches (cmd : Command) :
    ∀ (p : List String), p ≠ [] → ∀ (c : Cli),
      ∃ n, Cli.descend (Cli.regAux cmd p c).1 p = some n ∧ n.handler = some cmd := by
  intro p
  induction p with
  | nil => intro h; exact absurd rfl h
  | cons t ts ih =>
    intro _ c
    cases hl : lookupKey t c.commands with
    | none =>
      cases ts with
      | nil =>
        refine ⟨Cli.mk [] (some cmd), ?_, rfl⟩
        rw [regAux_fst_none cmd [] hl, regAuxChild_nil]
        rw [descend_cons [] (lookup_append_self _ _ hl)]
        rfl
      | cons r rs =>
        obtain ⟨n, hdesc, hh⟩ := ih (by simp) (Cli.mk [] none)
        refine ⟨n, ?_, hh⟩
        rw [regAux_fst_none cmd (r :: rs) hl, regAuxChild_cons]
        rw [descend_cons (r :: rs) (lookup_append_self _ _ hl)]
        exact hdesc
    | some existing =>
      cases ts with
      | nil =>
        refine ⟨Cli.mk existing.commands (some cmd), ?_, rfl⟩
        rw [regAux_fst_some cmd [] hl, regAuxChild_nil]
        rw [descend_cons [] (lookup_setKey _ _ _ hl)]
        rfl
      | cons r rs =>
        obtain ⟨n, hdesc, hh⟩ := ih (by simp) existing
        refine ⟨n, ?_, hh⟩
        rw [regAux_fst_some cmd (r :: rs) hl, regAuxChild_cons]
        rw [descend_cons (r :: rs) (lookup_setKey _ _ _ hl)]
        exact hdesc

/-- Frame property of `_register` along an already-existing path: the final
node keeps its entire child map (hence all descendants and their handlers)
and only its handler slot is overwritten. -/
theorem regAux_frame (cmd : Command) :
    ∀ (p : List String), p ≠ [] → ∀ (c n : Cli),
      Cli.descend c p = some n →
      Cli.descend (Cli.regAux cmd p c).1 p = some (Cli.mk n.commands (some cmd)) := by
  intro p
  induction p with
  | nil => intro h; exact absurd rfl h
  | cons t ts ih =>
    intro _ c n hd
    simp only [Cli.descend] at hd
    cases hl : lookupKey t c.commands with
    | none => rw [hl] at hd; exact absurd hd (by simp)
    | some existing =>
      rw [hl] at hd
      cases ts with
      | nil =>
        simp only [Cli.descend, Option.some.injEq] at hd
        subst hd
        rw [regAux_fst_some cmd [] hl, regAuxChild_nil]
        rw [descend_cons [] (lookup_setKey _ _ _ hl)]
        rfl
      | cons r rs =>
        have hnext := ih (by simp) existing n hd
        rw [regAux_fst_some cmd (r :: rs) hl, regAuxChild_cons]
        rw [descend_cons (r :: rs) (lookup_setKey _ _ _ hl)]
        exact hnext

theorem register_fst (c : Cli) (p : List String) (fid : Nat) (hp : p ≠ []) :
    (Cli.register c p fid).1 = (Cli.regAux ⟨p, fid, none⟩ p c).1 := by
  cases p with
  | nil => exact absurd rfl hp
  | cons t ts =>
    simp [Cli.register, regAux_ok]

/-- Witness trie: a dynamic-complete handler at `["foo"]` (callback always
returning `["X"]`) together with a literal child `["foo","bar"]`. -/
def cliDyn : Cli :=
  (((Cli.mk [] none).register_dyn_complete ["foo"] 1 (fun _ => ["X"])).1.register
    ["foo", "bar"] 2).1

/-- Witness trie: a single handler at `["foo"]` with exec id 7. -/
def cliFoo : Cli := ((Cli.mk [] none).register ["foo"] 7).1

/-- Claim C1, counterexample: with a dynamic complete callback returning
`["X"]` at node `["foo"]` and a literal child `"bar"`, `complete "foo"` is
`["X", "bar"]`, not exactly the callback's `["X"]`: the source's exhausted
branch unconditionally appends every child key after the callback results. -/
theorem c1_counterexample :
    Cli.complete cliDyn "foo" = ["X", "bar"] ∧ Cli.complete cliDyn "foo" ≠ ["X"] := by
  constructor
  · decide
  · decide

/-- Claim C1 as amended: when the token stream is exhausted at node `n`,
`complete` returns the dynamic callback's results on the sentinel `[""]`
(empty when there is no handler or no callback) followed by every child key
of `n`, unfiltered; in particular with no children and no callback the
result is empty. -/
theorem c1_amended_complete_exhausted (c n : Cli) (line : String) (p : List String)
    (htok : tokenize line = p) (hd : Cli.descend c p = some n) :
    Cli.complete c line = dynOf n [""] ++ n.commands.map Prod.fst := by
  have h := completeAux_descend p [] c n hd
  rw [List.append_nil] at h
  unfold Cli.complete
  rw [htok, h]
  rfl

theorem c1_witness :
    Cli.complete cliDyn "foo" =
      dynOf (nodeAt cliDyn ["foo"]) [""] ++
        ((nodeAt cliDyn ["foo"]).commands.map Prod.fst) :=
  c1_amended_complete_exhausted cliDyn (nodeAt cliDyn ["foo"]) "foo" ["foo"]
    (by decide) rfl

/-- Claim C2: registering an empty command path (with either `register` or
`register_dyn_complete`) returns `Err` and — the source's documented buggy
behavior — installs the handler at the root node, leaving the child map
untouched; that root handler is then invoked by `exec` as a fallback for any
input whose first token matches no registered command. -/
theorem c2_empty_path_register (c : Cli) (fid : Nat) (cb : List String → List String) :
    (Cli.register c [] fid).2 = Except.error () ∧
    (Cli.register c [] fid).1 = Cli.mk c.commands (some ⟨[], fid, none⟩) ∧
    (Cli.register_dyn_complete c [] fid cb).2 = Except.error () ∧
    (Cli.register_dyn_complete c [] fid cb).1 =
      Cli.mk c.commands (some ⟨[], fid, some cb⟩) ∧
    (∀ (line : String) (t : String) (ts : List String),
      tokenize line = t :: ts → lookupKey t c.commands = none →
      Cli.exec (Cli.register c [] fid).1 line = some (fid, t :: ts)) := by
  refine ⟨rfl, rfl, rfl, rfl, ?_⟩
  intro line t ts htok hl
  show Cli.execAux (tokenize line) (Cli.mk c.commands (some ⟨[], fid, none⟩))
    (tokenize line) = _
  rw [htok]
  simp [Cli.execAux, hl]

theorem c2_witness :
    Cli.exec (Cli.register (Cli.mk [] none) [] 99).1 "zap x" = some (99, ["zap", "x"]) :=
  (c2_empty_path_register (Cli.mk [] none) 99 (fun _ => [])).2.2.2.2 "zap x" "zap" ["x"]
    (by decide) rfl

/-- Claim C3: after registering a nonempty path `p` with exec id `fid`, every
`exec` call on a line tokenizing to `p`, or to `p` plus extra tokens whose
first has no child at the reached node, invokes that exec closure exactly
once with the full original token sequence (path tokens included); two
identical calls produce two identical invocations. -/
theorem c3_exec_full_args (c : Cli) (p : List String) (fid : Nat) (line : String)
    (extra : List String) (hp : p ≠ []) (htok : tokenize line = p ++ extra)
    (hextra : ∀ t ts, extra = t :: ts →
      lookupKey t (nodeAt (Cli.register c p fid).1 p).commands = none) :
    Cli.exec (Cli.register c p fid).1 line = some (fid, p ++ extra) ∧
    Cli.execTrace (Cli.register c p fid).1 [line, line] =
      [(fid, p ++ extra), (fid, p ++ extra)] := by
  obtain ⟨n, hdesc, hh⟩ := regAux_reaches ⟨p, fid, none⟩ p hp c
  rw [← register_fst c p fid hp] at hdesc
  have hnode : nodeAt (Cli.register c p fid).1 p = n := by
    rw [nodeAt, hdesc]
    rfl
  have hexec : Cli.exec (Cli.register c p fid).1 line = some (fid, p ++ extra) := by
    unfold Cli.exec
    rw [htok]
    rw [execAux_descend (p ++ extra) p extra _ n hdesc]
    cases extra with
    | nil => simp [Cli.execAux, hh]
    | cons t ts =>
      have hlt := hextra t ts rfl
      rw [hnode] at hlt
      simp [Cli.execAux, hlt, hh]
  refine ⟨hexec, ?_⟩
  simp [Cli.execTrace, hexec]

theorem c3_witness :
    Cli.exec cliFoo "foo bar baz" = some (7, ["foo", "bar", "baz"]) ∧
    Cli.execTrace cliFoo ["foo bar baz", "foo bar baz"] =
      [(7, ["foo", "bar", "baz"]), (7, ["foo", "bar", "baz"])] :=
  c3_exec_full_args (Cli.mk [] none) ["foo"] 7 "foo bar baz" ["bar", "baz"]
    (by decide) (by decide) (fun t ts h => by cases h; rfl)

/-- Witness trie: a single handler at `["foo","bar"]` with exec id 3. -/
def cliFooBar : Cli := ((Cli.mk [] none).register ["foo", "bar"] 3).1

/-- Claim C6: at a completion point (the next token `t` matches no child of
the reached node `n`), `complete` returns the dynamic callback's results on
`t` followed by the remaining tokens (empty contribution if there is no
handler or no callback), then every child key of `n` having `t` as a literal
string prefix; dynamic results come first and nothing is deduplicated or
sorted. -/
theorem c6_complete_mismatch (c n : Cli) (line : String) (p : List String)
    (t : String) (ts : List String)
    (htok : tokenize line = p ++ t :: ts)
    (hd : Cli.descend c p = some n)
    (hmiss : lookupKey t n.commands = none) :
    Cli.complete c line =
      dynOf n (t :: ts) ++
        (n.commands.map Prod.fst).filter (fun k => strStartsWith t k) := by
  unfold Cli.complete
  rw [htok, completeAux_descend p (t :: ts) c n hd]
  simp [Cli.completeAux, hmiss]

theorem c6_witness :
    Cli.complete cliDyn "foo b" =
      dynOf (nodeAt cliDyn ["foo"]) ["b"] ++
        ((nodeAt cliDyn ["foo"]).commands.map Prod.fst).filter
          (fun k => strStartsWith "b" k) :=
  c6_complete_mismatch cliDyn (nodeAt cliDyn ["foo"]) "foo b" ["foo"] "b" []
    (by decide) rfl rfl

/-- Claim C7: when traversal stops (by mismatch or exhaustion) at a node with
no handler, `exec` invokes nothing and returns the silent no-op; and when a
completion point has no dynamic contribution and no prefix-matching child
keys, `complete` returns the empty list rather than any error. -/
theorem c7_silent_noop :
    (∀ (c n : Cli) (line : String) (p extra : List String),
      tokenize line = p ++ extra → Cli.descend c p = some n →
      (extra = [] ∨ ∃ t ts, extra = t :: ts ∧ lookupKey t n.commands = none) →
      n.handler = none → Cli.exec c line = none) ∧
    (∀ (c n : Cli) (line : String) (p : List String) (t : String) (ts : List String),
      tokenize line = p ++ t :: ts → Cli.descend c p = some n →
      lookupKey t n.commands = none → dynOf n (t :: ts) = [] →
      (n.commands.map Prod.fst).filter (fun k => strStartsWith t k) = [] →
      Cli.complete c line = []) := by
  constructor
  · intro c n line p extra htok hd hstop hnoh
    unfold Cli.exec
    rw [htok, execAux_descend (p ++ extra) p extra c n hd]
    rcases hstop with h0 | ⟨t, ts, hts, hlt⟩
    · subst h0
      simp [Cli.execAux, hnoh]
    · subst hts
      simp [Cli.execAux, hlt, hnoh]
  · intro c n line p t ts htok hd hmiss hdyn hfil
    unfold Cli.complete
    rw [htok, completeAux_descend p (t :: ts) c n hd]
    simp [Cli.completeAux, hmiss, hdyn, hfil]

theorem c7_witness :
    Cli.exec cliFooBar "foo" = none ∧ Cli.complete cliFooBar "foo zz" = [] :=
  ⟨c7_silent_noop.1 cliFooBar (nodeAt cliFooBar ["foo"]) "foo" ["foo"] []
      (by decide) rfl (Or.inl rfl) rfl,
   c7_silent_noop.2 cliFooBar (nodeAt cliFooBar ["foo"]) "foo zz" ["foo"] "zz" []
      (by decide) rfl rfl rfl rfl⟩

/-- Claim C9: registering along an already-existing path `p` replaces the
handler at the final node (last write wins) while preserving that node's
entire child map — hence every descendant node and handler — so a node can
hold its own handler and children simultaneously.  This covers both
re-registration of an identical path and registration of a strict prefix of
an existing longer path; `_register` reports success. -/
theorem c9_register_frame (c n : Cli) (p : List String) (cmd : Command)
    (hp : p ≠ []) (hd : Cli.descend c p = some n) :
    Cli.descend (Cli.regAux cmd p c).1 p = some (Cli.mk n.commands (some cmd)) ∧
    (Cli.regAux cmd p c).2 = true := by
  refine ⟨regAux_frame cmd p hp c n hd, ?_⟩
  cases p with
  | nil => exact absurd rfl hp
  | cons t ts => exact regAux_ok cmd t ts c

theorem c9_witness :
    Cli.descend (Cli.regAux ⟨["foo"], 9, none⟩ ["foo"] cliFooBar).1 ["foo"] =
      some (Cli.mk (nodeAt cliFooBar ["foo"]).commands (some ⟨["foo"], 9, none⟩)) ∧
    (Cli.regAux ⟨["foo"], 9, none⟩ ["foo"] cliFooBar).2 = true :=
  c9_register_frame cliFooBar (nodeAt cliFooBar ["foo"]) ["foo"] ⟨["foo"], 9, none⟩
    (by decide) rfl

set_option maxRecDepth 8192 in
theorem classify_eq_table : ∀ b : Nat, b < 256 → b ≠ 0x1B →
    classifySingle b = ReadResult.key (specKeyTable b) := by decide

/-- Claim C8: for every byte stream, the key `read_key` produces follows the
spec's exact byte table — single-byte classes for every byte other than
`0x1B`, and the four three-byte arrow sequences `0x1B 0x5B 0x41..0x44`. -/
theorem c8_key_decoder_table :
    (∀ (b : Nat) (rest : List Nat), b < 256 → b ≠ 0x1B →
      read_key (b :: rest) = (ReadResult.key (specKeyTable b), rest)) ∧
    (∀ r, read_key (0x1B :: 0x5B :: 0x41 :: r) =
      (ReadResult.key (Key.arrow Direction.up), r)) ∧
    (∀ r, read_key (0x1B :: 0x5B :: 0x42 :: r) =
      (ReadResult.key (Key.arrow Direction.down), r)) ∧
    (∀ r, read_key (0x1B :: 0x5B :: 0x43 :: r) =
      (ReadResult.key (Key.arrow Direction.right), r)) ∧
    (∀ r, read_key (0x1B :: 0x5B :: 0x44 :: r) =
      (ReadResult.key (Key.arrow Direction.left), r)) := by
  refine ⟨?_, fun r => rfl, fun r => rfl, fun r => rfl, fun r => rfl⟩
  intro b rest hb h1b
  simp only [read_key]
  rw [if_neg h1b, classify_eq_table b hb h1b]

theorem c8_witness :
    read_key [0x2A] = (ReadResult.key (specKeyTable 0x2A), []) :=
  c8_key_decoder_table.1 0x2A [] (by decide) (by decide)

/-- Claim C5 evidence: end of stream and unrecognized escape tails yield no
Key (and the loop terminates on that result), but a stream ending right
after `0x1B`, or right after `0x1B 0x5B`, panics — the source unwraps the
`None` from `bytes.next()` inside its diagnostic print — contradicting the
claim's "does not fail or panic" for premature escape ends. -/
theorem c5_escape_behavior :
    read_key [] = (ReadResult.noKey, []) ∧
    read_key [0x1B, 0x41] = (ReadResult.noKey, []) ∧
    read_key [0x1B, 0x5B, 0x5A, 0x77] = (ReadResult.noKey, [0x77]) ∧
    (read_key [0x1B]).1 = ReadResult.panicked ∧
    (read_key [0x1B, 0x5B]).1 = ReadResult.panicked ∧
    (runLoop (Cli.mk [] none) [] []).exits = ExitKind.noKey ∧
    (runLoop (Cli.mk [] none) [] [0x1B, 0x41]).exits = ExitKind.noKey := by
  refine ⟨rfl, rfl, rfl, rfl, rfl, ?_, ?_⟩
  · rw [runLoop_noKey (Cli.mk [] none) []
      ((rfl : read_key [] = (ReadResult.noKey, [])))]
  · rw [runLoop_noKey (Cli.mk [] none) []
      ((rfl : read_key [0x1B, 0x41] = (ReadResult.noKey, [])))]

/-- Claim C4, counterexample: a Digit key (byte `0x31`, character '1') is not
appended to the line buffer and not echoed; it falls into the source's
`x @ _ => println!("unhandled…")` arm, which leaves the buffer unchanged. -/
theorem c4_counterexample :
    (runLoop (Cli.mk [] none) [] [0x31]).buffer = [] ∧
    (runLoop (Cli.mk [] none) [] [0x31]).buffer ≠ ['1'] ∧
    (runLoop (Cli.mk [] none) [] [0x31]).events =
      [Event.unhandledKey (Key.digit 1)] := by
  have h1 : runLoop (Cli.mk [] none) [] [0x31] =
      RunResult.cons (Event.unhandledKey (Key.digit 1))
        (runLoop (Cli.mk [] none) [] []) :=
    runLoop_digit (Cli.mk [] none) [] 1 (by decide)
  have h2 : runLoop (Cli.mk [] none) [] [] = ⟨[], [], [], ExitKind.noKey⟩ :=
    runLoop_noKey (Cli.mk [] none) [] ((rfl : read_key [] = (ReadResult.noKey, [])))
  rw [h1, h2]
  decide

/-- Claim C4 as amended: a decoded Char key appends its character to the
buffer and echoes it, and Whitespace appends and echoes a single space; but
Symbol and Digit keys are not appended and not echoed — the loop emits an
"unhandled" diagnostic and leaves the buffer alone. -/
theorem c4_amended_loop_keys :
    (∀ (cli : Cli) (buf : List Char) (c : Char) (stream rest : List Nat),
      read_key stream = (ReadResult.key (Key.char c), rest) →
      runLoop cli buf stream =
        RunResult.cons (Event.echo c) (runLoop cli (buf ++ [c]) rest)) ∧
    (∀ (cli : Cli) (buf : List Char) (stream rest : List Nat),
      read_key stream = (ReadResult.key Key.whitespace, rest) →
      runLoop cli buf stream =
        RunResult.cons (Event.echo ' ') (runLoop cli (buf ++ [' ']) rest)) ∧
    (∀ (cli : Cli) (buf : List Char) (d : Nat) (stream rest : List Nat),
      read_key stream = (ReadResult.key (Key.digit d), rest) →
      runLoop cli buf stream =
        RunResult.cons (Event.unhandledKey (Key.digit d)) (runLoop cli buf rest)) ∧
    (∀ (cli : Cli) (buf : List Char) (ch : Char) (stream rest : List Nat),
      read_key stream = (ReadResult.key (Key.symbol ch), rest) →
      runLoop cli buf stream =
        RunResult.cons (Event.unhandledKey (Key.symbol ch)) (runLoop cli buf rest)) :=
  ⟨fun cli buf c _ _ h => runLoop_char cli buf c h,
   fun cli buf _ _ h => runLoop_ws cli buf h,
   fun cli buf d _ _ h => runLoop_digit cli buf d h,
   fun cli buf ch _ _ h => runLoop_symbol cli buf ch h⟩

theorem c4_witness :
    runLoop (Cli.mk [] none) [] [0x61] =
      RunResult.cons (Event.echo 'a') (runLoop (Cli.mk [] none) ['a'] []) :=
  c4_amended_loop_keys.1 (Cli.mk [] none) [] 'a' [0x61] [] (by decide)

/-- Claim C10, counterexample: a byte stream ending right after `0x1B` makes
`read_key` panic inside the loop; the panic unwinds past the trailing
`tcsetattr`, so the captured terminal configuration is not restored. -/
theorem c10_counterexample :
    (unix_cline_run (Cli.mk [] none) [0x1B]).restored = false ∧
    (unix_cline_run (Cli.mk [] none) [0x1B]).loop.exits = ExitKind.panicked := by
  have h : runLoop (Cli.mk [] none) [] [0x1B] = ⟨[], [], [], ExitKind.panicked⟩ :=
    runLoop_panic (Cli.mk [] none) []
      ((rfl : read_key [0x1B] = (ReadResult.panicked, [])))
  constructor
  · show restoresOn (runLoop (Cli.mk [] none) [] [0x1B]).exits = false
    rw [h]
    rfl
  · show (runLoop (Cli.mk [] none) [] [0x1B]).exits = ExitKind.panicked
    rw [h]

/-- Claim C10 as amended: the captured terminal configuration is restored on
every loop-termination path — Etx and the decoder's no-Key result (end of
input or unrecognized escape) — but not on abnormal, panicking exits: the
restore call is straight-line code after the loop with no scope guard. -/
theorem c10_amended_restore (cli : Cli) (stream : List Nat)
    (h : (unix_cline_run cli stream).loop.exits = ExitKind.etx ∨
      (unix_cline_run cli stream).loop.exits = ExitKind.noKey) :
    (unix_cline_run cli stream).restored = true := by
  have h' : (runLoop cli [] stream).exits = ExitKind.etx ∨
      (runLoop cli [] stream).exits = ExitKind.noKey := h
  show restoresOn (runLoop cli [] stream).exits = true
  rcases h' with h' | h' <;> (rw [h']; rfl)

theorem c10_witness : (unix_cline_run (Cli.mk [] none) []).restored = true :=
  c10_amended_restore (Cli.mk [] none) []
    (Or.inr (show (runLoop (Cli.mk [] none) [] []).exits = ExitKind.noKey by
      rw [runLoop_noKey (Cli.mk [] none) []
        ((rfl : read_key [] = (ReadResult.noKey, [])))]))

example : tokenize "foo bar" = ["foo", "bar"] := by decide
example : tokenize "  foo   b " = ["foo", "b"] := by decide
example : tokenize "" = [] := by decide
example :
    Cli.complete ((Cli.mk [] none).register ["foo"] 1).1 "f" = ["foo"] := by decide
example :
    Cli.complete ((Cli.mk [] none).register ["foo"] 1).1 "foo" = [] := by decide
example :
    Cli.exec ((Cli.mk [] none).register ["foo"] 1).1 "foo bar baz" =
      some (1, ["foo", "bar", "baz"]) := by decide
